import Mathlib

/-!
Verification of the command handler of a Redis-wire-compatible server
(`app/handler.py`) against its natural-language specification.

The development shallowly embeds the handler: the dispatcher, the
transaction queue, master-side replication broadcast and offset
bookkeeping, the replica-side byte accounting, and the `XREAD`
argument parsing, start-id resolution and deadline computation.

The repository ships `app/handler.py` and the test file of the RESP
serialiser; the serialiser, database and connection-registry modules
themselves are absent, so those parts are modelled from the spec
(each such definition carries a doc comment starting
`Modelled from the spec:`).  Machine integers do not occur: Python
integers are unbounded, so `Nat`/`Int` model them exactly.
-/

namespace RedisPy

/-- Model of Python `str.lower` on a single character, restricted to the
ASCII range that the claims exercise: an ASCII uppercase letter
(codepoint 65..90) is shifted by 32, every other character is kept. -/
def pyCharLower (c : Char) : Char :=
  if 65 ≤ c.toNat ∧ c.toNat ≤ 90 then Char.ofNat (c.toNat + 32) else c

/-- Model of Python `str.lower` (ASCII fragment), applied characterwise. -/
def pyLower (s : String) : String :=
  String.mk (s.data.map pyCharLower)

/-- Does the string contain an ASCII uppercase letter?  (Bool-valued so
that concrete instances evaluate by `decide`.) -/
def hasUpper (s : String) : Bool :=
  s.data.any (fun c => 65 ≤ c.toNat && c.toNat ≤ 90)

/-- Modelled from the spec: RESP bulk-string encoding from the missing
serialiser module, pinned by `test_serialiser.py`
(`encode_bulk_string("hello") == "$5\r\nhello\r\n"`, absent value gives
`$-1\r\n`). -/
def encodeBulkString : Option String → String
  | none => "$-1\r\n"
  | some s => "$" ++ toString s.length ++ "\r\n" ++ s ++ "\r\n"

/-- Modelled from the spec: RESP simple-string encoding
(`encode_simple_string("OK") == "+OK\r\n"`). -/
def encodeSimpleString (s : String) : String :=
  "+" ++ s ++ "\r\n"

/-- Modelled from the spec: RESP integer encoding
(`encode_integer(123) == ":123\r\n"`). -/
def encodeInteger (n : Int) : String :=
  ":" ++ toString n ++ "\r\n"

/-- Modelled from the spec: RESP array encoding of a flat list of
strings — prefix `*`, element count, then each element as a bulk string
(`encode_array(["foo","bar"]) == "*2\r\n$3\r\nfoo\r\n$3\r\nbar\r\n"`).
Client command frames are exactly such flat arrays. -/
def encodeArray (xs : List String) : String :=
  "*" ++ toString xs.length ++ "\r\n"
    ++ String.join (xs.map (fun s => encodeBulkString (some s)))

example : encodeArray ["foo", "bar"] = "*2\r\n$3\r\nfoo\r\n$3\r\nbar\r\n" := by
  decide

example : (encodeArray ["REPLCONF", "GETACK", "*"]).length = 37 := by decide

example : (encodeArray ["SET", "mango", "blueberry"]).length = 39 := by decide

/-- A Python exception escaping a handler body: either a
`RedisException` (caught at dispatch and turned into an error reply) or
any other exception (`ValueError`, `IndexError`, `RecursionError`, …)
which nothing in the handler catches. -/
inductive PyErr where
  | redis (msg : String)
  | other (msg : String)
deriving DecidableEq

/-- Reply payloads as the handler passes them around before encoding
(`opaque` stands for the payload of a command whose semantics the
claims do not touch). -/
inductive RVal where
  | s (v : String)
  | i (n : Int)
  | null
  | exc (msg : String)
  | list (vs : List RVal)
  | opaqueVal

/-- The `RedisType` tag returned next to each payload. -/
inductive RType where
  | simple
  | bulk
  | int
  | array
  | error
deriving DecidableEq

/-- Result of `_execute`: a `(payload, kind)` reply, `silent` for the
`None` return of `replconf_ack`, `unmod` for commands whose reply the
claims never inspect, or `err` for an exception propagating out of the
call. -/
inductive CmdRes where
  | ok (v : RVal) (t : RType)
  | silent
  | unmod
  | err (e : PyErr)

/-- Which call site produced a broadcast: the forwarding of a write
command in `handle_master_command`, or the `REPLCONF GETACK *` frame
sent by `wait`. -/
inductive BKind where
  | writeFwd
  | getackFwd
deriving DecidableEq

/-- Observable events of one handler invocation, in order: a broadcast
to the registered replica writers, or a keyspace write. -/
inductive Event where
  | bcast (payload : String)
  | apply (key val : String)
deriving DecidableEq

/-- State of a `RedisCommandHandler` (string keyspace; the stream part
of the keyspace is modelled separately for the `XREAD` claims, which no
dispatcher-level claim touches).  `sent` is the log of payloads handed
to `ConnectionRegistry.broadcast`, `registry` the replica records as
pairs of writer id and acked offset. -/
structure HState where
  db : List (String × String)
  offset : Nat
  sent : List (BKind × String)
  tx : Option (List (String × List String))
  registry : List (Nat × Int)
  bytesProcessed : Nat
deriving DecidableEq

/-- Fresh master handler state (`__init__` with `replicaof` unset):
offset 0, no broadcasts, no open transaction, empty registry. -/
def initMaster : HState :=
  { db := [], offset := 0, sent := [], tx := none, registry := [],
    bytesProcessed := 0 }

/-- Exact-match association lookup, the model of a Python dict read. -/
def dbGet : List (String × String) → String → Option String
  | [], _ => none
  | (k, v) :: rest, key => if k = key then some v else dbGet rest key

/-- `Database.set`: replace any prior value of the key.
Modelled from the spec: the database module is absent; per the spec,
`set(key, value, expires_at?)` replaces any prior entry.  Expiry
instants are wall-clock values no claim depends on, so they are not
carried. -/
def dbSet (db : List (String × String)) (k v : String) :
    List (String × String) :=
  (k, v) :: db

/-- `write_to_replicas`: broadcast the payload to every registered
replica writer and advance `replication_offset` by its length
(handler.py lines 430-435). -/
def writeToReplicas (st : HState) (kind : BKind) (payload : String) :
    HState :=
  { st with offset := st.offset + payload.length,
            sent := st.sent ++ [(kind, payload)] }

/-- `get_command`: split the decoded argv into the lowercased verb and
the tail (handler.py lines 437-444). -/
def getCommand (argv : List String) : String × List String :=
  (pyLower (argv.headD ""), argv.tail)

/-- Sum of the byte lengths of all broadcast payloads in the log. -/
def sumSent (l : List (BKind × String)) : Nat :=
  (l.map (fun b => b.2.length)).sum

/-- Sum of the byte lengths of only the forwarded write commands
(the `handle_master_command` broadcast site). -/
def sumWriteSent (l : List (BKind × String)) : Nat :=
  ((l.filter (fun b => b.1 = BKind.writeFwd)).map
    (fun b => b.2.length)).sum

/-- Decimal digit value of a character, if it is an ASCII digit. -/
def digitVal (c : Char) : Option Nat :=
  if 48 ≤ c.toNat ∧ c.toNat ≤ 57 then some (c.toNat - 48) else none

/-- Accumulate decimal digits; fail on any non-digit character. -/
def digitsAcc : List Char → Nat → Option Nat
  | [], acc => some acc
  | c :: rest, acc =>
    match digitVal c with
    | none => none
    | some d => digitsAcc rest (acc * 10 + d)

/-- Parse a non-empty all-digit character list. -/
def digitsToNat : List Char → Option Nat
  | [] => none
  | cs => digitsAcc cs 0

/-- Model of Python `int(str)` on the fragment the handler receives: an
optional minus sign followed by ASCII digits; anything else raises
`ValueError` (modelled as `none`).  Python also accepts surrounding
whitespace, a plus sign and underscores; no claim exercises those. -/
def pyToInt (s : String) : Option Int :=
  match s.data with
  | '-' :: rest => (digitsToNat rest).map (fun n => -(n : Int))
  | cs => (digitsToNat cs).map (fun n => (n : Int))

/-- The verbs `get_command_kls` resolves (handler.py lines 446-472);
any other verb raises `RedisException("Invalid command")` there. -/
def knownVerbs : List String :=
  ["ping", "echo", "set", "get", "incr", "xadd", "xrange", "xread",
   "multi", "exec", "discard", "config", "keys", "info", "replconf",
   "psync", "wait", "type"]

/-- `ping`: reply PONG as a simple string. -/
def pingBody (st : HState) : HState × List Event × CmdRes :=
  (st, [], .ok (.s "PONG") .simple)

/-- `echo`: reply the first argument as a bulk string; `args[0]` on an
empty tail raises `IndexError`. -/
def echoBody (st : HState) (args : List String) :
    HState × List Event × CmdRes :=
  match args with
  | [] => (st, [], .err (.other "IndexError"))
  | a :: _ => (st, [], .ok (.s a) .bulk)

/-- The option scan of `set` (handler.py lines 71-75): each `PX`/`EX`
token (case-insensitive) reads and integer-parses its successor;
a missing successor raises `IndexError`, a non-integer `ValueError`.
The resulting expiry instants are wall-clock values no claim depends
on, so only the failure modes are kept. -/
def setOptionsErr : List String → Option PyErr
  | [] => none
  | a :: rest =>
    if pyLower a = "px" ∨ pyLower a = "ex" then
      match rest with
      | [] => some (.other "IndexError")
      | t :: _ =>
        match pyToInt t with
        | none => some (.other "ValueError")
        | some _ => setOptionsErr rest
    else setOptionsErr rest

/-- `set` (handler.py lines 64-79): store the value under the key,
reply OK as a simple string. -/
def setBody (st : HState) (args : List String) :
    HState × List Event × CmdRes :=
  match args with
  | k :: v :: opts =>
    match setOptionsErr opts with
    | some e => (st, [], .err e)
    | none =>
      ({ st with db := dbSet st.db k v }, [Event.apply k v],
       .ok (.s "OK") .simple)
  | _ => (st, [], .err (.other "IndexError"))

/-- `get` (handler.py lines 190-195): bulk string reply, null when the
key is absent. -/
def getBody (st : HState) (args : List String) :
    HState × List Event × CmdRes :=
  match args with
  | [] => (st, [], .err (.other "IndexError"))
  | k :: _ =>
    (st, [],
     .ok (match dbGet st.db k with
          | some v => .s v
          | none => .null) .bulk)

/-- `incr` (handler.py lines 197-213): missing key counts as 0; a
non-integer value raises the `RedisException` the dispatch catches. -/
def incrBody (st : HState) (args : List String) :
    HState × List Event × CmdRes :=
  match args with
  | [] => (st, [], .err (.other "IndexError"))
  | k :: _ =>
    match (match dbGet st.db k with
           | none => some 0
           | some v => pyToInt v) with
    | none => (st, [], .err (.redis "value is not an integer or out of range"))
    | some n =>
      ({ st with db := dbSet st.db k (toString (n + 1)) },
       [Event.apply k (toString (n + 1))], .ok (.i (n + 1)) .int)

/-- `multi` (handler.py lines 396-401): initialise the transaction
queue, reply OK. -/
def multiBody (st : HState) : HState × List Event × CmdRes :=
  ({ st with tx := some [] }, [], .ok (.s "OK") .simple)

/-- `discard` (handler.py lines 419-426). -/
def discardBody (st : HState) : HState × List Event × CmdRes :=
  match st.tx with
  | none => (st, [], .err (.redis "DISCARD without MULTI"))
  | some _ => ({ st with tx := none }, [], .ok (.s "OK") .simple)

/-- Modelled from the spec: `update_replica_offset(writer, n)` of the
missing connection-registry module sets the acked offset of the record
whose writer matches. -/
def updateReplicaOffset (rs : List (Nat × Int)) (w : Nat) (n : Int) :
    List (Nat × Int) :=
  rs.map (fun r => if r.1 = w then (r.1, n) else r)

/-- `replconf` (handler.py lines 340-374): `GETACK` replies
`["REPLCONF", "ACK", str(bytes_processed)]` with the handler's current
byte counter; `ACK n` updates the acked offset of the emitting writer
and returns no reply; other subcommands reply OK. -/
def replconfBody (st : HState) (args : List String) (writer : Option Nat) :
    HState × List Event × CmdRes :=
  match args with
  | [] => (st, [], .err (.redis "Currently, REPLCONF command expects subcommand"))
  | sub :: rest =>
    if pyLower sub = "getack" then
      (st, [],
       .ok (.list [.s "REPLCONF", .s "ACK", .s (toString st.bytesProcessed)])
         .array)
    else if pyLower sub = "ack" then
      match rest with
      | [] => (st, [], .err (.other "IndexError"))
      | n :: _ =>
        match pyToInt n with
        | none => (st, [], .err (.other "ValueError"))
        | some m =>
          match writer with
          | none => (st, [], .silent)
          | some w =>
            ({ st with registry := updateReplicaOffset st.registry w m },
             [], .silent)
    else (st, [], .ok (.s "OK") .simple)

/-- `wait` (handler.py lines 292-338): capture `target = offset`; when
the target is 0 reply the replica count at once; otherwise broadcast
`REPLCONF GETACK *` through `write_to_replicas` (which advances the
offset) and poll `check_replica_sync(target)`.  The 100 ms poll loop
involves real time, outside the embedding: it is modelled as its
deadline path, the count observed at the first check; the state effect
(the single GETACK broadcast) is exact and is all any claim uses. -/
def waitBody (st : HState) (args : List String) :
    HState × List Event × CmdRes :=
  match args with
  | a :: b :: _ =>
    match pyToInt a, pyToInt b with
    | some _, some _ =>
      let target := st.offset
      if target = 0 then (st, [], .ok (.i st.registry.length) .int)
      else
        let st1 := writeToReplicas st .getackFwd
          (encodeArray ["REPLCONF", "GETACK", "*"])
        let synced := (st1.registry.filter
          (fun r => (target : Int) ≤ r.2)).length
        (st1, [], .ok (.i synced) .int)
    | _, _ => (st, [], .err (.other "ValueError"))
  | _ => (st, [], .err (.other "IndexError"))

/-- The `for command, comm_arr in self.transaction_queue` loop of
`exec` (handler.py lines 411-413), parameterised by the next level of
`_execute` (each queued command runs with
`execute_transaction=True`).  A `None` result of `_execute` would fail
the Python tuple unpacking (`TypeError`). -/
def execLoopAux
    (step : HState → String → List String → HState × List Event × CmdRes) :
    HState → List (String × List String) →
    HState × List Event × Except PyErr (List RVal)
  | st, [] => (st, [], .ok [])
  | st, (c, a) :: rest =>
    match step st c a with
    | (st1, ev1, .err e) => (st1, ev1, .error e)
    | (st1, ev1, .silent) => (st1, ev1, .error (.other "TypeError"))
    | (st1, ev1, .ok v _) =>
      match execLoopAux step st1 rest with
      | (st2, ev2, .error e) => (st2, ev1 ++ ev2, .error e)
      | (st2, ev2, .ok vs) => (st2, ev1 ++ ev2, .ok (v :: vs))
    | (st1, ev1, .unmod) =>
      match execLoopAux step st1 rest with
      | (st2, ev2, .error e) => (st2, ev1 ++ ev2, .error e)
      | (st2, ev2, .ok vs) => (st2, ev1 ++ ev2, .ok (.opaqueVal :: vs))

/-- Body of `exec` (handler.py lines 403-417), parameterised by the
next level of `_execute`: with no open transaction raise
`EXEC without MULTI`; otherwise run every queued `(verb, argv)` pair in
order, collect the reply payloads, then clear the queue and reply the
array.  An exception escaping a queued command aborts the loop BEFORE
the queue is cleared. -/
def execCoreAux
    (next : HState → String → List String → Option Nat → Bool →
      HState × List Event × CmdRes)
    (s : HState) : HState × List Event × CmdRes :=
  match s.tx with
  | none => (s, [], .err (.redis "EXEC without MULTI"))
  | some q =>
    match execLoopAux (fun s1 c a => next s1 c a none true) s q with
    | (st1, ev, .error e) => (st1, ev, .err e)
    | (st1, ev, .ok responses) =>
      ({ st1 with tx := none }, ev, .ok (.list responses) .array)

/-- The `try ... except RedisException` of `_execute` (handler.py lines
495-502): a `RedisException` raised by the command body becomes an
Error-typed reply; anything else passes through (and an escaping
non-Redis exception keeps escaping). -/
def catchRedis (x : HState × List Event × CmdRes) :
    HState × List Event × CmdRes :=
  match x with
  | (st1, ev, .err (.redis m)) => (st1, ev, .ok (.exc m) .error)
  | r => r

/-- The command-body dispatch inside the `try` of `_execute`: the
coroutine `get_command_kls` resolved, invoked on the argv tail.  The
verbs `xadd`, `xrange`, `xread`, `config`, `keys`, `info`, `type` and
`psync` are resolved by the source but no dispatcher-level claim
touches their semantics (the `XREAD` claims are settled on the
dedicated model below); they are carried as `unmod` results that leave
the state unchanged — in the source none of them ever calls
`write_to_replicas` or assigns `replication_offset`, so every
offset/broadcast statement below is unaffected by this. -/
def runKlsAux
    (next : HState → String → List String → Option Nat → Bool →
      HState × List Event × CmdRes)
    (st : HState) (command : String) (args : List String)
    (writer : Option Nat) : HState × List Event × CmdRes :=
  if command = "ping" then pingBody st
  else if command = "echo" then echoBody st args
  else if command = "set" then setBody st args
  else if command = "get" then getBody st args
  else if command = "incr" then incrBody st args
  else if command = "multi" then multiBody st
  else if command = "exec" then execCoreAux next st
  else if command = "discard" then discardBody st
  else if command = "replconf" then replconfBody st args writer
  else if command = "wait" then waitBody st args
  else (st, [], .unmod)

/-- One level of `_execute` (handler.py lines 474-502), parameterised
by the next level (`next` runs the queued commands during `exec`).

With a transaction open and `execute_transaction` unset: `exec` and
`discard` are invoked directly, OUTSIDE any `try`, so their exceptions
propagate; every other verb — validated or not — is appended to the
queue with reply QUEUED.  Otherwise the verb is resolved by
`get_command_kls`; an unknown verb raises there, before the `try` that
follows, so `RedisException("Invalid command")` escapes `_execute`;
for a known verb the body runs under the `try`. -/
def pyExecuteStep
    (next : HState → String → List String → Option Nat → Bool →
      HState × List Event × CmdRes)
    (st : HState) (command : String) (args : List String)
    (writer : Option Nat) (executeTransaction : Bool) :
    HState × List Event × CmdRes :=
  match st.tx, executeTransaction with
  | some q, false =>
    if command = "exec" then execCoreAux next st
    else if command = "discard" then discardBody st
    else
      ({ st with tx := some (q ++ [(command, args)]) }, [],
       .ok (.s "QUEUED") .simple)
  | _, _ =>
    if command ∈ knownVerbs then
      catchRedis (runKlsAux next st command args writer)
    else (st, [], .err (.redis "Invalid command"))

/-- `_execute`, with `fuel` standing for the Python recursion limit:
every level of nesting through `exec` consumes one unit, and at
exhaustion the call raises the escaping `RecursionError` (the claims
nest `exec` at most once; the bound only disciplines the adversarial
states in universally quantified statements). -/
def pyExecute : Nat → HState → String → List String → Option Nat →
    Bool → HState × List Event × CmdRes
  | 0, st, _, _, _, _ => (st, [], .err (.other "RecursionError"))
  | fuel + 1, st, command, args, writer, executeTransaction =>
    pyExecuteStep (pyExecute fuel) st command args writer
      executeTransaction

/-- Recursion budget standing for the Python recursion limit; every
reachable scenario of the claims nests `exec` at most once. -/
def pyFuel : Nat := 100

/-- `handle_master_command` (handler.py lines 509-519): decode the raw
frame into argv, and when the verb is in `BROADCAST = { SET }` forward
the raw frame to all registered replica writers via
`write_to_replicas` BEFORE dispatching through `execute`.  The decoder
lives in the missing serialiser module; by its codec roundtrip property
(spec section 8, pinned by `test_serialiser.py`) the raw frame of the
argv is `encodeArray argv`, so the model takes the argv and
reconstructs the frame. -/
def handleMasterCommand (st : HState) (argv : List String)
    (writer : Option Nat) : HState × List Event × CmdRes :=
  let p := getCommand argv
  let data := encodeArray argv
  let start :=
    if p.1 = "set" then
      (writeToReplicas st .writeFwd data, [Event.bcast data])
    else (st, ([] : List Event))
  let r := pyExecute pyFuel start.1 p.1 p.2 writer false
  (r.1, start.2 ++ r.2.1, r.2.2)

/-- One master step, discarding the reply (used for reachability). -/
def stepM (st : HState) (argv : List String) : HState :=
  (handleMasterCommand st argv none).1

/-- The master states reachable from startup: fold the handler over the
sequence of decoded client commands. -/
def runMaster (cmds : List (List String)) : HState :=
  cmds.foldl stepM initMaster

/-- Master run keeping each command's dispatch result. -/
def runMasterOutcomes : HState → List (List String) → HState × List CmdRes
  | st, [] => (st, [])
  | st, argv :: rest =>
    let r := handleMasterCommand st argv none
    let t := runMasterOutcomes r.1 rest
    (t.1, r.2.2 :: t.2)

/-- `handle_replica` (handler.py lines 521-543): the inbound master
stream is decoded by `multi_command_decoder` into `(argv, byte_length)`
pairs (the missing serialiser module, pinned by `test_serialiser.py`);
the model takes those pairs.  Each command is executed; its reply is
collected when the connection is not a propagation or the verb is
`REPLCONF`; and only AFTER the reply is produced does
`bytes_processed` advance by the command's byte length.  A reply entry
is the payload of the reply (`none` for the `None` reply of
`replconf ack`; the final string join of the encoded frames is byte
formatting no claim inspects).  An escaping exception aborts the
loop. -/
def handleReplica : HState → List (List String × Nat) → Bool →
    HState × List (Option RVal) × Option PyErr
  | st, [], _ => (st, [], none)
  | st, (argv, len) :: rest, prop =>
    let p := getCommand argv
    match pyExecute pyFuel st p.1 p.2 none false with
    | (st1, _, .err e) => (st1, [], some e)
    | (st1, _, r) =>
      let resp : Option RVal :=
        match r with
        | .ok v _ => some v
        | .unmod => some .opaqueVal
        | _ => none
      let st2 := { st1 with bytesProcessed := st1.bytesProcessed + len }
      let t := handleReplica st2 rest prop
      (t.1,
       (if !prop || p.1 = "replconf" then resp :: t.2.1 else t.2.1),
       t.2.2)

/-- Modelled from the spec: a stream entry id, the ordered pair
(ms, seq) of the missing database module; the total order is
lexicographic. -/
structure StreamId where
  ms : Nat
  seq : Nat
deriving DecidableEq

/-- The lexicographic strict order on stream ids. -/
def sidLt (a b : StreamId) : Bool :=
  a.ms < b.ms || (a.ms == b.ms && a.seq < b.seq)

/-- Binary maximum under the stream-id order, the step of Python
`max`. -/
def sidMax (a b : StreamId) : StreamId :=
  if sidLt a b then b else a

/-- A stream entry: id and its alternating field-value list. -/
abbrev Entry := StreamId × List String

/-- Modelled from the spec: the stream part of the keyspace — a mapping
from key to the ordered entries of the stream (the `XREAD` claims only
involve stream-typed keys). -/
abbrev SDb := List (String × List Entry)

/-- Exact-match lookup in the stream keyspace (a Python dict read). -/
def sLookup : SDb → String → Option (List Entry)
  | [], _ => none
  | (k, v) :: rest, key => if k = key then some v else sLookup rest key

/-- Python `max` over the keys of a stream dict: the maximum id under
the stream-id order; `ValueError` on an empty dict (`none`). -/
def topId : List Entry → Option StreamId
  | [] => none
  | e :: rest => some (rest.foldl (fun acc x => sidMax acc x.1) e.1)

/-- First index of a string in a list, the model of Python
`list.index` (callers handle absence). -/
def indexOfStr : List String → String → Option Nat
  | [], _ => none
  | a :: rest, t =>
    if a = t then some 0 else (indexOfStr rest t).map (· + 1)

/-- Result of the argv analysis of `xread`. -/
structure XReadArgs where
  blockTime : Option Int
  streamKeys : List String
  startIds : List String
deriving DecidableEq

/-- The argv analysis of `xread` (handler.py lines 120-152), in source
order: (1) the membership test `"streams" not in args` runs on the RAW
argv, before any case folding, so the keyword must appear in lowercase;
(2) the argv is lowercased elementwise; (3) `streams_index` is the
first occurrence of `streams` in the lowered argv and the tail after it
is `stream_args`; (4) when `block` occurs anywhere in the lowered argv
its successor is integer-parsed (`IndexError` when absent, `ValueError`
when non-numeric) and a negative value raises a `RedisException`;
(5) an odd `stream_args` raises; (6) the first half of `stream_args`
is the stream keys, the second half the start ids. -/
def xreadParse (args : List String) : Except PyErr XReadArgs :=
  if "streams" ∈ args then
    let largs := args.map pyLower
    match indexOfStr largs "streams" with
    | none => .error (.other "ValueError")
    | some si =>
      let streamArgs := largs.drop (si + 1)
      let blockRes : Except PyErr (Option Int) :=
        match indexOfStr largs "block" with
        | none => .ok none
        | some bi =>
          match largs.get? (bi + 1) with
          | none => .error (.other "IndexError")
          | some t =>
            match pyToInt t with
            | none => .error (.other "ValueError")
            | some b =>
              if b < 0 then
                .error (.redis "Block time must be a non-negative integer.")
              else .ok (some b)
      match blockRes with
      | .error e => .error e
      | .ok b =>
        if streamArgs.length % 2 ≠ 0 then
          .error (.redis "The number of stream keys must match the number of start IDs.")
        else
          .ok { blockTime := b,
                streamKeys := streamArgs.take (streamArgs.length / 2),
                startIds := streamArgs.drop (streamArgs.length / 2) }
  else .error (.redis "Invalid arguments. Expected streams in argument list")

/-- Modelled from the spec: parse of a stream-id string of the missing
database module — `ms-seq` verbatim, a bare `n` is `(n, 0)` for a
start bound, `-` is the minimum id. -/
def parseStartId (s : String) : Option StreamId :=
  if s = "-" then some ⟨0, 0⟩
  else
    match s.data.splitOn '-' with
    | [msCs] => (digitsToNat msCs).map (fun n => ⟨n, 0⟩)
    | [msCs, seqCs] =>
      match digitsToNat msCs, digitsToNat seqCs with
      | some m, some q => some ⟨m, q⟩
      | _, _ => none
    | _ => none

/-- Start-id resolution of `xread` (handler.py lines 154-162) over the
zipped (key, id) pairs: the sentinel `$` is replaced by the maximum
over the existing keys of that stream at CALL time (`KeyError` when the
stream is missing, `ValueError` from `max` on an empty dict — the spec
leaves both undefined), and every resolved id is prefixed `(`, an
exclusive bound.  The `(`-string is parsed inside the missing database
module when `get_range_stream` receives it; the spec's boundary syntax
(leading `(` exclusive, otherwise `ms-seq` or bare `ms`) is folded into
this step, so each element of the result is the exclusive lower-bound
id every later poll will use. -/
def resolveOne (db : SDb) (key v : String) : Except PyErr StreamId :=
  if v = "$" then
    match sLookup db key with
    | none => .error (.other "KeyError")
    | some es =>
      match topId es with
      | none => .error (.other "ValueError")
      | some top => .ok top
  else
    match parseStartId v with
    | none => .error (.other "InvalidStreamId")
    | some sid => .ok sid

/-- The `for idx, val in enumerate(start_ids)` loop of the resolution,
over the (key, id) pairs in argv order. -/
def resolveStarts (db : SDb) : List (String × String) →
    Except PyErr (List StreamId)
  | [] => .ok []
  | (key, v) :: rest =>
    match resolveOne db key v with
    | .error e => .error e
    | .ok sid =>
      match resolveStarts db rest with
      | .error e => .error e
      | .ok sids => .ok (sid :: sids)

/-- Modelled from the spec: `get_range_stream(key, "(id")` with only a
start bound returns the entries whose id lies in the open-below range
above the bound, in stored order; a missing key contributes no
entries. -/
def rangeAfter (db : SDb) (key : String) (start : StreamId) :
    List Entry :=
  match sLookup db key with
  | none => []
  | some es => es.filter (fun e => sidLt start e.1)

/-- One pass of the `while True` poll of `xread` (handler.py lines
166-173): each (key, resolved-start) pair whose range is nonempty
contributes `[key, data]` to the combined response, in argv order. -/
def xreadPoll (db : SDb) (keys : List String) (starts : List StreamId) :
    List (String × List Entry) :=
  (keys.zip starts).filterMap
    (fun p =>
      let d := rangeAfter db p.1 p.2
      if d = [] then none else some (p.1, d))

/-- `xread` through parse, resolution at the entry keyspace and the
first poll (handler.py lines 120-188): the reply is the combined
response when nonempty, else the null bulk string (`none`).  The later
polls of a blocking invocation re-run `xreadPoll` on the then-current
keyspace with the SAME resolved starts; real time governs only how
often that happens, so the per-poll content is fully captured by
`xreadPoll`. -/
def xreadOnce (db : SDb) (args : List String) :
    Except PyErr (Option (List (String × List Entry))) :=
  match xreadParse args with
  | .error e => .error e
  | .ok p =>
    match resolveStarts db (p.streamKeys.zip p.startIds) with
    | .error e => .error e
    | .ok starts =>
      let c := xreadPoll db p.streamKeys starts
      .ok (if c = [] then none else some c)

/-- The deadline computation of a blocking `xread` (handler.py lines
139-144): event-loop time is in seconds, and the code adds
`block_time // 1000` — the INTEGER division of the millisecond
argument by 1000 — to the entry time; `BLOCK 0` is the infinite
deadline (`none`). -/
def xreadEndTime (start : ℚ) (blockMs : Nat) : Option ℚ :=
  let e := start + ((blockMs / 1000 : Nat) : ℚ)
  if blockMs = 0 then none else some e

/-- The deadline as the claim states it: entry time plus the block
argument taken as milliseconds (written in event-loop seconds);
`BLOCK 0` blocks indefinitely. -/
def claimedXreadDeadline (start : ℚ) (blockMs : Nat) : Option ℚ :=
  if blockMs = 0 then none else some (start + (blockMs : ℚ) / 1000)

/-- Scan of an event trace checking that every broadcast happens only
after some keyspace apply: the first broadcast-or-apply event must be
an apply. -/
def bcastOnlyAfterApply : List Event → Bool
  | [] => true
  | Event.apply _ _ :: _ => true
  | Event.bcast _ :: _ => false

/-- C1, counterexample.  The claim requires the raw RESP bytes of a
`SET` to be forwarded to the replica writers only AFTER the master has
applied the write to its keyspace.  On the code, `handle_master_command`
broadcasts first and only then dispatches: handling `SET foo bar` from
the fresh master produces the event trace broadcast-then-apply, so the
forwarding precedes the local apply. -/
theorem c1_counterexample :
    (handleMasterCommand initMaster ["SET", "foo", "bar"] none).2.1
      = [.bcast (encodeArray ["SET", "foo", "bar"]), .apply "foo" "bar"]
    ∧ bcastOnlyAfterApply
        (handleMasterCommand initMaster ["SET", "foo", "bar"] none).2.1
      = false :=
  ⟨rfl, rfl⟩

/-- C1, amended.  On the master, a `SET` received outside a transaction
is forwarded to all registered replica writers (advancing the offset by
the frame length) BEFORE the write is applied to the keyspace, and both
happen before the reply `OK` is returned to the client: the handler
yields exactly the trace broadcast, apply, and then the reply. -/
theorem c1_amended (st : HState) (k v : String) (w : Option Nat)
    (h : st.tx = none) :
    handleMasterCommand st ["SET", k, v] w
      = ({ st with db := dbSet st.db k v,
                   offset := st.offset + (encodeArray ["SET", k, v]).length,
                   sent := st.sent ++ [(BKind.writeFwd, encodeArray ["SET", k, v])] },
         [Event.bcast (encodeArray ["SET", k, v]), Event.apply k v],
         .ok (.s "OK") .simple) := by
  obtain ⟨db, off, sent, tx, reg, bp⟩ := st
  cases tx with
  | none => rfl
  | some q => exact Option.noConfusion h

/-- C1, witness for the amended theorem at the fresh master state. -/
theorem c1_amended_witness :
    initMaster.tx = none
    ∧ handleMasterCommand initMaster ["SET", "foo", "bar"] none
      = ({ initMaster with
             db := dbSet initMaster.db "foo" "bar",
             offset := initMaster.offset
               + (encodeArray ["SET", "foo", "bar"]).length,
             sent := initMaster.sent
               ++ [(BKind.writeFwd, encodeArray ["SET", "foo", "bar"])] },
         [Event.bcast (encodeArray ["SET", "foo", "bar"]),
          Event.apply "foo" "bar"],
         .ok (.s "OK") .simple) :=
  ⟨rfl, c1_amended initMaster "foo" "bar" none rfl⟩

/-- C3, code bug.  The claim (and the spec, sections 4.3 and 7) says an
unsupported verb yields a RESP Error reply and no exception escapes the
handler.  In the code, `get_command_kls` raises
`RedisException("Invalid command")` OUTSIDE the `try` of `_execute`
(handler.py line 493 versus 495), so the exception escapes: dispatching
the unknown verb `FLUSHALL` produces an escaping exception, not an
Error-typed reply, and the handler state is untouched. -/
theorem c3_bug :
    (handleMasterCommand initMaster ["FLUSHALL"] none).2.2
      = .err (.redis "Invalid command")
    ∧ (handleMasterCommand initMaster ["FLUSHALL"] none).1 = initMaster :=
  ⟨rfl, rfl⟩

/-- C4, code bug.  The claim (backed by the spec, section 7) says a
queued command that errors contributes the error at its position in the
`EXEC` reply array and every other queued command still executes, for
any queued verb including unsupported ones.  On the code this holds for
supported verbs whose body raises (second run: the `INCR` of a
non-numeric value sits as an error element between two executed `SET`
replies), but a queued UNSUPPORTED verb makes `get_command_kls` raise
outside every `try`: the whole `EXEC` escapes (first run), the queued
commands after the bad one never execute, no reply array is produced,
and the transaction queue is not even cleared — only the commands
before the bad one took effect. -/
theorem c4_bug :
    (runMasterOutcomes initMaster
        [["MULTI"], ["SET", "a", "1"], ["LPUSH", "x", "y"],
         ["INCR", "a"], ["EXEC"]]).2
      = [.ok (.s "OK") .simple, .ok (.s "QUEUED") .simple,
         .ok (.s "QUEUED") .simple, .ok (.s "QUEUED") .simple,
         .err (.redis "Invalid command")]
    ∧ dbGet (runMasterOutcomes initMaster
        [["MULTI"], ["SET", "a", "1"], ["LPUSH", "x", "y"],
         ["INCR", "a"], ["EXEC"]]).1.db "a" = some "1"
    ∧ dbGet (runMasterOutcomes initMaster
        [["MULTI"], ["SET", "a", "1"], ["LPUSH", "x", "y"],
         ["INCR", "a"], ["EXEC"]]).1.db "x" = none
    ∧ (runMasterOutcomes initMaster
        [["MULTI"], ["SET", "a", "1"], ["LPUSH", "x", "y"],
         ["INCR", "a"], ["EXEC"]]).1.tx
      = some [("set", ["a", "1"]), ("lpush", ["x", "y"]), ("incr", ["a"])]
    ∧ (runMasterOutcomes initMaster
        [["MULTI"], ["SET", "a", "x"], ["INCR", "a"], ["SET", "b", "2"],
         ["EXEC"]]).2
      = [.ok (.s "OK") .simple, .ok (.s "QUEUED") .simple,
         .ok (.s "QUEUED") .simple, .ok (.s "QUEUED") .simple,
         .ok (.list [.s "OK", .exc "value is not an integer or out of range",
                     .s "OK"]) .array] :=
  ⟨rfl, rfl, rfl, rfl, rfl⟩

/-- C6, code bug.  The claim (and the spec) takes the `BLOCK` argument
in milliseconds: the deadline is entry time plus t milliseconds.  The
code computes `end_time = start_time + block_time // 1000`, adding the
INTEGER division by 1000 — whole seconds — to the event-loop clock:
with `BLOCK 1500` the coded deadline is entry + 1 s instead of
entry + 1.5 s (and `BLOCK 500` gives entry + 0 s).  `BLOCK 0` does
block indefinitely in both readings. -/
theorem c6_bug :
    xreadEndTime 0 1500 = some 1
    ∧ claimedXreadDeadline 0 1500 = some (3 / 2)
    ∧ xreadEndTime 0 1500 ≠ claimedXreadDeadline 0 1500
    ∧ xreadEndTime 0 500 = some 0
    ∧ xreadEndTime 0 0 = none
    ∧ claimedXreadDeadline 0 0 = none := by
  refine ⟨by norm_num [xreadEndTime], by norm_num [claimedXreadDeadline],
          ?_, by norm_num [xreadEndTime], by norm_num [xreadEndTime],
          by norm_num [claimedXreadDeadline]⟩
  have h1 : xreadEndTime 0 1500 = some 1 := by norm_num [xreadEndTime]
  have h2 : claimedXreadDeadline 0 1500 = some (3 / 2) := by
    norm_num [claimedXreadDeadline]
  rw [h1, h2]
  intro h
  have := Option.some.inj h
  norm_num at this

/-- C2, counterexample.  The claim says the replication offset always
equals the summed byte lengths of the forwarded WRITE commands and that
non-write traffic never advances it.  On the code, `wait` broadcasts
the `REPLCONF GETACK *` frame through `write_to_replicas`, which adds
that frame's 37 bytes to the offset: after `SET foo bar` (31 bytes
forwarded) followed by `WAIT 1 100`, the reachable master state has
offset 68 while the forwarded writes sum to 31. -/
theorem c2_counterexample :
    (runMaster [["SET", "foo", "bar"], ["WAIT", "1", "100"]]).offset = 68
    ∧ sumWriteSent
        (runMaster [["SET", "foo", "bar"], ["WAIT", "1", "100"]]).sent = 31
    ∧ (runMaster [["SET", "foo", "bar"], ["WAIT", "1", "100"]]).offset
      ≠ sumWriteSent
          (runMaster [["SET", "foo", "bar"], ["WAIT", "1", "100"]]).sent := by
  refine ⟨rfl, rfl, ?_⟩
  intro h
  simp only [show (runMaster [["SET", "foo", "bar"], ["WAIT", "1", "100"]]).offset
      = 68 from rfl,
    show sumWriteSent
        (runMaster [["SET", "foo", "bar"], ["WAIT", "1", "100"]]).sent
      = 31 from rfl] at h
  omega

/-- C5, counterexample.  The claim says `XREAD` parses correctly with
`BLOCK` and `STREAMS` in either relative order.  When `BLOCK` follows
`STREAMS`, the code still takes the whole tail after `streams` and
splits it in half: for argv `STREAMS k 0-0 BLOCK 1000` the parse yields
stream keys `[k, 0-0]` and start ids `[block, 1000]` instead of the
correct `[k]` and `[0-0]`. -/
theorem c5_counterexample :
    xreadParse ["streams", "k", "0-0", "block", "1000"]
      = .ok ⟨some 1000, ["k", "0-0"], ["block", "1000"]⟩
    ∧ xreadParse ["streams", "k", "0-0", "block", "1000"]
      ≠ .ok ⟨some 1000, ["k"], ["0-0"]⟩ := by
  refine ⟨rfl, ?_⟩
  intro h
  rw [show xreadParse ["streams", "k", "0-0", "block", "1000"]
      = .ok ⟨some 1000, ["k", "0-0"], ["block", "1000"]⟩ from rfl] at h
  simp at h

/-- C10, counterexample.  The claim says `XREAD` matches stream keys
case-insensitively.  It does not: the argv is folded to lowercase and
then looked up EXACTLY, so a stream stored under `FOO` is not found
even by an `XREAD` naming exactly `FOO` (first conjunct, although the
stream has entries above the requested start `0-0`), while a stream
stored under lowercase `foo` IS found by the query `FOO` (second
conjunct) — one-way case folding of the query, not case-insensitive
matching of the store. -/
theorem c10_counterexample :
    xreadOnce [("FOO", [(⟨1, 0⟩, ["f", "v"])])] ["streams", "FOO", "0-0"]
      = .ok none
    ∧ xreadOnce [("foo", [(⟨1, 0⟩, ["f", "v"])])] ["streams", "FOO", "0-0"]
      = .ok (some [("foo", [(⟨1, 0⟩, ["f", "v"])])]) :=
  ⟨rfl, rfl⟩

/-- C8.  With a transaction open on the master, a `SET` is forwarded to
the replicas at the moment it is QUEUED: the handler broadcasts the raw
frame (advancing the offset by its length) and only appends the command
to the queue, leaving the keyspace untouched (first part); when the
queued `SET` later executes during `EXEC`, nothing is forwarded at all:
the keyspace write happens, the queue is cleared and the reply array is
produced with offset and broadcast log unchanged (second part). -/
theorem c8_theorem :
    (∀ (st : HState) (q : List (String × List String)) (k v : String)
        (w : Option Nat), st.tx = some q →
      handleMasterCommand st ["SET", k, v] w
        = ({ st with
               offset := st.offset + (encodeArray ["SET", k, v]).length,
               sent := st.sent
                 ++ [(BKind.writeFwd, encodeArray ["SET", k, v])],
               tx := some (q ++ [("set", [k, v])]) },
           [Event.bcast (encodeArray ["SET", k, v])],
           .ok (.s "QUEUED") .simple))
    ∧ (∀ (st : HState) (k v : String) (w : Option Nat),
        st.tx = some [("set", [k, v])] →
      handleMasterCommand st ["EXEC"] w
        = ({ st with db := dbSet st.db k v, tx := none },
           [Event.apply k v],
           .ok (.list [.s "OK"]) .array)) := by
  constructor
  · intro st q k v w h
    obtain ⟨db, off, sent, tx, reg, bp⟩ := st
    cases tx with
    | none => exact Option.noConfusion h
    | some q2 =>
      cases Option.some.inj h
      rfl
  · intro st k v w h
    obtain ⟨db, off, sent, tx, reg, bp⟩ := st
    cases tx with
    | none => exact Option.noConfusion h
    | some q2 =>
      cases Option.some.inj h
      rfl

/-- C8, witness: `MULTI` then `SET a 1` then `EXEC` on the fresh
master, exercising both parts of the theorem. -/
theorem c8_witness :
    (runMaster [["MULTI"]]).tx = some []
    ∧ (handleMasterCommand (runMaster [["MULTI"]]) ["SET", "a", "1"]
        none).1.tx = some [("set", ["a", "1"])]
    ∧ handleMasterCommand (runMaster [["MULTI"]]) ["SET", "a", "1"] none
      = ({ runMaster [["MULTI"]] with
             offset := (runMaster [["MULTI"]]).offset
               + (encodeArray ["SET", "a", "1"]).length,
             sent := (runMaster [["MULTI"]]).sent
               ++ [(BKind.writeFwd, encodeArray ["SET", "a", "1"])],
             tx := some ([] ++ [("set", ["a", "1"])]) },
         [Event.bcast (encodeArray ["SET", "a", "1"])],
         .ok (.s "QUEUED") .simple)
    ∧ handleMasterCommand
        (handleMasterCommand (runMaster [["MULTI"]]) ["SET", "a", "1"]
          none).1 ["EXEC"] none
      = ({ (handleMasterCommand (runMaster [["MULTI"]]) ["SET", "a", "1"]
             none).1 with
             db := dbSet (handleMasterCommand (runMaster [["MULTI"]])
               ["SET", "a", "1"] none).1.db "a" "1",
             tx := none },
         [Event.apply "a" "1"],
         .ok (.list [.s "OK"]) .array) :=
  ⟨rfl, rfl,
   c8_theorem.1 (runMaster [["MULTI"]]) [] "a" "1" none rfl,
   c8_theorem.2 (handleMasterCommand (runMaster [["MULTI"]])
     ["SET", "a", "1"] none).1 "a" "1" none rfl⟩

/-- The offset bookkeeping invariant: the replication offset equals the
summed byte lengths of every payload handed to the registry
broadcast. -/
def offInv (st : HState) : Prop :=
  st.offset = sumSent st.sent

lemma sumSent_append (l : List (BKind × String)) (x : BKind × String) :
    sumSent (l ++ [x]) = sumSent l + x.2.length := by
  simp [sumSent]

lemma offInv_write {st : HState} (kind : BKind) (p : String)
    (h : offInv st) : offInv (writeToReplicas st kind p) := by
  simp only [offInv, writeToReplicas, sumSent_append] at *
  omega

lemma offInv_pingBody {st : HState} (h : offInv st) :
    offInv (pingBody st).1 := h

lemma offInv_echoBody {st : HState} (args : List String)
    (h : offInv st) : offInv (echoBody st args).1 := by
  cases args <;> exact h

lemma offInv_setBody {st : HState} (args : List String)
    (h : offInv st) : offInv (setBody st args).1 := by
  unfold setBody
  repeat' split
  all_goals simpa [offInv] using h

lemma offInv_getBody {st : HState} (args : List String)
    (h : offInv st) : offInv (getBody st args).1 := by
  cases args <;> exact h

lemma offInv_incrBody {st : HState} (args : List String)
    (h : offInv st) : offInv (incrBody st args).1 := by
  unfold incrBody
  repeat' split
  all_goals simpa [offInv] using h

lemma offInv_multiBody {st : HState} (h : offInv st) :
    offInv (multiBody st).1 := by
  simpa [offInv, multiBody] using h

lemma offInv_discardBody {st : HState} (h : offInv st) :
    offInv (discardBody st).1 := by
  unfold discardBody
  split
  all_goals simpa [offInv] using h

lemma offInv_replconfBody {st : HState} (args : List String)
    (w : Option Nat) (h : offInv st) :
    offInv (replconfBody st args w).1 := by
  unfold replconfBody
  repeat' split
  all_goals simpa [offInv] using h

lemma offInv_waitBody {st : HState} (args : List String)
    (h : offInv st) : offInv (waitBody st args).1 := by
  unfold waitBody
  repeat' split
  all_goals try exact h
  all_goals dsimp only
  all_goals split
  all_goals first
    | exact h
    | exact offInv_write _ _ h

lemma offInv_execLoopAux
    (step : HState → String → List String → HState × List Event × CmdRes)
    (hstep : ∀ s c a, offInv s → offInv (step s c a).1) :
    ∀ (items : List (String × List String)) (st : HState), offInv st →
      offInv (execLoopAux step st items).1 := by
  intro items
  induction items with
  | nil => intro st h; exact h
  | cons x rest ih =>
    intro st h
    obtain ⟨c, a⟩ := x
    simp only [execLoopAux]
    split
    next st1 ev1 e hr =>
      have h1 := hstep st c a h
      rw [hr] at h1
      exact h1
    next st1 ev1 hr =>
      have h1 := hstep st c a h
      rw [hr] at h1
      exact h1
    next st1 ev1 v t hr =>
      have h1 := hstep st c a h
      rw [hr] at h1
      have h2 := ih st1 h1
      split
      next st2 ev2 e2 hrec =>
        rw [hrec] at h2
        exact h2
      next st2 ev2 vs hrec =>
        rw [hrec] at h2
        exact h2
    next st1 ev1 hr =>
      have h1 := hstep st c a h
      rw [hr] at h1
      have h2 := ih st1 h1
      split
      next st2 ev2 e2 hrec =>
        rw [hrec] at h2
        exact h2
      next st2 ev2 vs hrec =>
        rw [hrec] at h2
        exact h2

lemma offInv_execCoreAux
    (next : HState → String → List String → Option Nat → Bool →
      HState × List Event × CmdRes)
    (hnext : ∀ s c a w e, offInv s → offInv (next s c a w e).1) :
    ∀ s : HState, offInv s → offInv (execCoreAux next s).1 := by
  intro s h
  unfold execCoreAux
  split
  · exact h
  next q heq =>
    have h1 := offInv_execLoopAux (fun s1 c a => next s1 c a none true)
      (fun s1 c a hs => hnext s1 c a none true hs) q s h
    split
    next st1 ev e hr =>
      rw [hr] at h1
      exact h1
    next st1 ev responses hr =>
      rw [hr] at h1
      simpa [offInv] using h1

lemma catchRedis_fst (x : HState × List Event × CmdRes) :
    (catchRedis x).1 = x.1 := by
  rcases x with ⟨st1, ev, r⟩
  cases r with
  | ok v t => rfl
  | silent => rfl
  | unmod => rfl
  | err e => cases e <;> rfl

lemma offInv_runKlsAux
    (next : HState → String → List String → Option Nat → Bool →
      HState × List Event × CmdRes)
    (hnext : ∀ s c a w e, offInv s → offInv (next s c a w e).1)
    (st : HState) (c : String) (a : List String) (w : Option Nat)
    (h : offInv st) : offInv (runKlsAux next st c a w).1 := by
  unfold runKlsAux
  repeat' split
  · exact offInv_pingBody h
  · exact offInv_echoBody a h
  · exact offInv_setBody a h
  · exact offInv_getBody a h
  · exact offInv_incrBody a h
  · exact offInv_multiBody h
  · exact offInv_execCoreAux next hnext st h
  · exact offInv_discardBody h
  · exact offInv_replconfBody a w h
  · exact offInv_waitBody a h
  · exact h

lemma offInv_pyExecuteStep
    (next : HState → String → List String → Option Nat → Bool →
      HState × List Event × CmdRes)
    (hnext : ∀ s c a w e, offInv s → offInv (next s c a w e).1)
    (st : HState) (c : String) (a : List String) (w : Option Nat)
    (e : Bool) (h : offInv st) :
    offInv (pyExecuteStep next st c a w e).1 := by
  unfold pyExecuteStep
  split
  · repeat' split
    · exact offInv_execCoreAux next hnext st h
    · exact offInv_discardBody h
    · simpa [offInv] using h
  · split
    · rw [catchRedis_fst]
      exact offInv_runKlsAux next hnext st c a w h
    · exact h

lemma offInv_pyExecute (fuel : Nat) :
    ∀ (st : HState) (c : String) (a : List String) (w : Option Nat)
      (e : Bool), offInv st → offInv (pyExecute fuel st c a w e).1 := by
  induction fuel with
  | zero => intro st c a w e h; exact h
  | succ f ih =>
    intro st c a w e h
    exact offInv_pyExecuteStep (pyExecute f)
      (fun s c1 a1 w1 e1 hs => ih s c1 a1 w1 e1 hs) st c a w e h

lemma offInv_handleMasterCommand (st : HState) (argv : List String)
    (w : Option Nat) (h : offInv st) :
    offInv (handleMasterCommand st argv w).1 := by
  simp only [handleMasterCommand]
  by_cases hset : (getCommand argv).1 = "set"
  · simp only [if_pos hset]
    exact offInv_pyExecute pyFuel _ _ _ _ _ (offInv_write _ _ h)
  · simp only [if_neg hset]
    exact offInv_pyExecute pyFuel _ _ _ _ _ h

/-- C2, amended.  At every master state reachable from startup, the
replication offset equals the sum of the raw encoded byte lengths of
ALL payloads handed to the replica broadcast — the forwarded `SET`
frames plus the `REPLCONF GETACK *` frames that `wait` sends through
`write_to_replicas` (so `WAIT`, which is not a write, also advances
the offset; see the counterexample). -/
theorem c2_amended (cmds : List (List String)) :
    (runMaster cmds).offset = sumSent (runMaster cmds).sent := by
  have key : ∀ (l : List (List String)) (st : HState), offInv st →
      offInv (l.foldl stepM st) := by
    intro l
    induction l with
    | nil => intro st h; exact h
    | cons c rest ih =>
      intro st h
      exact ih (stepM st c) (offInv_handleMasterCommand st c none h)
  exact key cmds initMaster rfl

/-- C9.  A replica answering `REPLCONF GETACK *` from the propagated
stream replies `["REPLCONF", "ACK", n]` where n EXCLUDES the byte
length of the GETACK command itself: after consuming any sequence of
propagated `SET` commands followed by the GETACK, the ACK payload
carries the starting counter plus only the `SET` byte lengths, while
`bytes_processed` ends up additionally advanced by the GETACK's own
length — the counter is bumped only after each command's reply is
produced. -/
theorem c9_theorem (st : HState) (h : st.tx = none)
    (pre : List ((String × String) × Nat)) (L : Nat) :
    (handleReplica st
        (pre.map (fun p => (["SET", p.1.1, p.1.2], p.2))
          ++ [(["REPLCONF", "GETACK", "*"], L)]) true).2.1
      = [some (.list [.s "REPLCONF", .s "ACK",
          .s (toString (st.bytesProcessed + (pre.map (fun p => p.2)).sum))])]
    ∧ (handleReplica st
        (pre.map (fun p => (["SET", p.1.1, p.1.2], p.2))
          ++ [(["REPLCONF", "GETACK", "*"], L)]) true).1.bytesProcessed
      = st.bytesProcessed + (pre.map (fun p => p.2)).sum + L := by
  induction pre generalizing st with
  | nil =>
    obtain ⟨db, off, sent, tx, reg, bp⟩ := st
    cases tx with
    | some q => exact Option.noConfusion h
    | none =>
      constructor
      · simp only [List.map_nil, List.nil_append, List.sum_nil,
          Nat.add_zero]
        rfl
      · simp only [List.map_nil, List.nil_append, List.sum_nil,
          Nat.add_zero]
        rfl
  | cons p0 rest ih =>
    obtain ⟨⟨k, v⟩, n⟩ := p0
    obtain ⟨db, off, sent, tx, reg, bp⟩ := st
    cases tx with
    | some q => exact Option.noConfusion h
    | none =>
      have e := ih ⟨dbSet db k v, off, sent, none, reg, bp + n⟩ rfl
      constructor
      · simp only [List.map_cons, List.sum_cons, ← Nat.add_assoc]
        exact e.1
      · simp only [List.map_cons, List.sum_cons, ← Nat.add_assoc]
        exact e.2

/-- C9, witness: the replica consumes `SET mango blueberry` (39 bytes)
then `REPLCONF GETACK *` (37 bytes): the ACK says 39, the final counter
is 76. -/
theorem c9_witness :
    initMaster.tx = none
    ∧ ((handleReplica initMaster
          [(["SET", "mango", "blueberry"], 39),
           (["REPLCONF", "GETACK", "*"], 37)] true).2.1
        = [some (.list [.s "REPLCONF", .s "ACK", .s "39"])]
      ∧ (handleReplica initMaster
          [(["SET", "mango", "blueberry"], 39),
           (["REPLCONF", "GETACK", "*"], 37)] true).1.bytesProcessed
        = 76) :=
  ⟨rfl, c9_theorem initMaster rfl [(("mango", "blueberry"), 39)] 37⟩

lemma indexOfStr_eq_none {l : List String} {t : String} (h : t ∉ l) :
    indexOfStr l t = none := by
  induction l with
  | nil => rfl
  | cons a rest ih =>
    simp only [List.mem_cons, not_or] at h
    simp [indexOfStr, if_neg (Ne.symm h.1), ih h.2]

/-- C5, amended.  `XREAD` argv parsing is correct when `BLOCK` (with
its value) PRECEDES `STREAMS`, or when `BLOCK` is absent — the literal
lowercase token `streams` must appear (the membership test runs before
case folding), the tail after it is split evenly into the stream keys
and then the start ids, with every token folded to lowercase (first
and second part respectively).  When `BLOCK` follows `STREAMS` the
block tokens land inside that tail and are misparsed as keys and ids
(see the counterexample). -/
theorem c5_amended :
    (∀ (s : String) (b : Int) (ks ids : List String),
        pyToInt (pyLower s) = some b → ¬b < 0 → pyLower s ≠ "streams" →
        ks.length = ids.length →
        xreadParse (["block", s, "streams"] ++ ks ++ ids)
          = .ok ⟨some b, ks.map pyLower, ids.map pyLower⟩)
    ∧ (∀ ks ids : List String,
        "block" ∉ (ks ++ ids).map pyLower →
        ks.length = ids.length →
        xreadParse (["streams"] ++ ks ++ ids)
          = .ok ⟨none, ks.map pyLower, ids.map pyLower⟩) := by
  constructor
  · intro s b ks ids hb hneg hstr hlen
    have hmem : "streams" ∈ ["block", s, "streams"] ++ ks ++ ids := by
      simp
    have hmap : (["block", s, "streams"] ++ ks ++ ids).map pyLower
        = "block" :: pyLower s :: "streams"
          :: (ks.map pyLower ++ ids.map pyLower) := by
      simp [show pyLower "block" = "block" from rfl,
        show pyLower "streams" = "streams" from rfl]
    have hidx : indexOfStr ("block" :: pyLower s :: "streams"
        :: (ks.map pyLower ++ ids.map pyLower)) "streams" = some 2 := by
      simp [indexOfStr, hstr]
    have hblk : indexOfStr ("block" :: pyLower s :: "streams"
        :: (ks.map pyLower ++ ids.map pyLower)) "block" = some 0 := by
      simp [indexOfStr]
    have hodd : ¬(ks.map pyLower ++ ids.map pyLower).length % 2 ≠ 0 := by
      simp only [List.length_append, List.length_map, hlen]
      omega
    have hdiv : (ks.map pyLower ++ ids.map pyLower).length / 2
        = ks.length := by
      simp only [List.length_append, List.length_map, hlen]
      omega
    have hdrop3 : List.drop (2 + 1) ("block" :: pyLower s :: "streams"
        :: (ks.map pyLower ++ ids.map pyLower))
        = ks.map pyLower ++ ids.map pyLower := rfl
    have hget1 : ("block" :: pyLower s :: "streams"
        :: (ks.map pyLower ++ ids.map pyLower)).get? (0 + 1)
        = some (pyLower s) := rfl
    unfold xreadParse
    rw [if_pos hmem, hmap]
    simp only [hidx, hblk, hdrop3, hget1, hb, if_neg hneg]
    rw [if_neg hodd]
    rw [hdiv,
      List.take_left' (by simp : (ks.map pyLower).length = ks.length),
      List.drop_left' (by simp : (ks.map pyLower).length = ks.length)]
  · intro ks ids hnb hlen
    have hmem : "streams" ∈ ["streams"] ++ ks ++ ids := by simp
    have hmap : (["streams"] ++ ks ++ ids).map pyLower
        = "streams" :: (ks.map pyLower ++ ids.map pyLower) := by
      simp [show pyLower "streams" = "streams" from rfl]
    have hidx : indexOfStr ("streams"
        :: (ks.map pyLower ++ ids.map pyLower)) "streams" = some 0 := by
      simp [indexOfStr]
    have hblk : indexOfStr ("streams"
        :: (ks.map pyLower ++ ids.map pyLower)) "block" = none := by
      apply indexOfStr_eq_none
      simp only [List.mem_cons, not_or]
      refine ⟨by decide, ?_⟩
      simpa using hnb
    have hodd : ¬(ks.map pyLower ++ ids.map pyLower).length % 2 ≠ 0 := by
      simp only [List.length_append, List.length_map, hlen]
      omega
    have hdiv : (ks.map pyLower ++ ids.map pyLower).length / 2
        = ks.length := by
      simp only [List.length_append, List.length_map, hlen]
      omega
    have hdrop1 : List.drop (0 + 1) ("streams"
        :: (ks.map pyLower ++ ids.map pyLower))
        = ks.map pyLower ++ ids.map pyLower := rfl
    unfold xreadParse
    rw [if_pos hmem, hmap]
    simp only [hidx, hblk, hdrop1]
    rw [if_neg hodd]
    rw [hdiv,
      List.take_left' (by simp : (ks.map pyLower).length = ks.length),
      List.drop_left' (by simp : (ks.map pyLower).length = ks.length)]

/-- C5, witness: both covered orderings at a concrete invocation —
`BLOCK 1000 STREAMS k 0-0` and `STREAMS k 0-0` parse into stream key
`k` with start id `0-0`. -/
theorem c5_witness :
    pyToInt (pyLower "1000") = some 1000
    ∧ xreadParse (["block", "1000", "streams"] ++ ["k"] ++ ["0-0"])
      = .ok ⟨some 1000, ["k"], ["0-0"]⟩
    ∧ xreadParse (["streams"] ++ ["k"] ++ ["0-0"])
      = .ok ⟨none, ["k"], ["0-0"]⟩ :=
  ⟨rfl,
   c5_amended.1 "1000" 1000 ["k"] ["0-0"] rfl (by decide) (by decide) rfl,
   c5_amended.2 ["k"] ["0-0"] (by decide) rfl⟩

lemma sidLt_iff (a b : StreamId) :
    sidLt a b = true ↔ a.ms < b.ms ∨ (a.ms = b.ms ∧ a.seq < b.seq) := by
  simp [sidLt, Bool.or_eq_true, Bool.and_eq_true, beq_iff_eq,
    decide_eq_true_eq]

lemma sidLt_false_iff (a b : StreamId) :
    sidLt a b = false ↔ ¬(a.ms < b.ms ∨ (a.ms = b.ms ∧ a.seq < b.seq)) := by
  rw [← sidLt_iff]
  cases h : sidLt a b <;> simp

lemma sidMax_cases (a b : StreamId) : sidMax a b = a ∨ sidMax a b = b := by
  unfold sidMax
  split
  · exact Or.inr rfl
  · exact Or.inl rfl

lemma foldl_sidMax_ub (l : List StreamId) :
    ∀ x : StreamId, sidLt (l.foldl sidMax x) x = false
      ∧ ∀ y ∈ l, sidLt (l.foldl sidMax x) y = false := by
  induction l with
  | nil =>
    intro x
    refine ⟨?_, by intro y hy; cases hy⟩
    simp only [List.foldl_nil]
    rw [sidLt_false_iff]
    omega
  | cons z rest ih =>
    intro x
    have h := ih (sidMax x z)
    have hmx : sidLt (sidMax x z) x = false := by
      unfold sidMax
      split
      next hlt =>
        rw [sidLt_iff] at hlt
        rw [sidLt_false_iff]
        omega
      next => rw [sidLt_false_iff]; omega
    have hmz : sidLt (sidMax x z) z = false := by
      unfold sidMax
      split
      next => rw [sidLt_false_iff]; omega
      next hlt =>
        rw [Bool.not_eq_true, sidLt_false_iff] at hlt
        rw [sidLt_false_iff]
        omega
    have htrans : ∀ u v w : StreamId, sidLt u v = false →
        sidLt v w = false → sidLt u w = false := by
      intro u v w h1 h2
      rw [sidLt_false_iff] at h1 h2 ⊢
      omega
    refine ⟨htrans _ _ _ h.1 hmx, ?_⟩
    intro y hy
    rcases List.mem_cons.mp hy with hyz | hyr
    · subst hyz
      exact htrans _ _ _ h.1 hmz
    · exact h.2 y hyr

lemma foldl_sidMax_mem (l : List StreamId) :
    ∀ x : StreamId, l.foldl sidMax x = x ∨ l.foldl sidMax x ∈ l := by
  induction l with
  | nil => intro x; exact Or.inl rfl
  | cons z rest ih =>
    intro x
    rcases ih (sidMax x z) with h | h
    · rcases sidMax_cases x z with hc | hc
      · exact Or.inl (by rw [List.foldl_cons, h, hc])
      · refine Or.inr ?_
        rw [List.foldl_cons, h, hc]
        exact List.mem_cons_self z rest
    · exact Or.inr (List.mem_cons_of_mem z h)

lemma topId_mem {es : List Entry} {t : StreamId} (h : topId es = some t) :
    t ∈ es.map Prod.fst := by
  cases es with
  | nil => exact Option.noConfusion h
  | cons e0 rest =>
    have ht : t = (rest.map Prod.fst).foldl sidMax e0.1 := by
      have := Option.some.inj h
      rw [← this, List.foldl_map]
    rcases foldl_sidMax_mem (rest.map Prod.fst) e0.1 with h1 | h1
    · rw [ht, h1]
      exact List.mem_cons_self _ _
    · rw [List.map_cons]
      exact List.mem_cons_of_mem _ (ht ▸ h1)

lemma topId_ub {es : List Entry} {t : StreamId} (h : topId es = some t) :
    ∀ e ∈ es, sidLt t e.1 = false := by
  cases es with
  | nil => exact Option.noConfusion h
  | cons e0 rest =>
    have ht : t = (rest.map Prod.fst).foldl sidMax e0.1 := by
      have := Option.some.inj h
      rw [← this, List.foldl_map]
    have hub := foldl_sidMax_ub (rest.map Prod.fst) e0.1
    intro e he
    rcases List.mem_cons.mp he with he0 | her
    · rw [ht, he0]
      exact hub.1
    · rw [ht]
      exact hub.2 e.1 (List.mem_map_of_mem Prod.fst her)

lemma get?_zip {α β : Type} :
    ∀ (l1 : List α) (l2 : List β) (i : Nat) (a : α) (b : β),
      l1.get? i = some a → l2.get? i = some b →
      (l1.zip l2).get? i = some (a, b) := by
  intro l1
  induction l1 with
  | nil => intro l2 i a b h1 h2; exact Option.noConfusion h1
  | cons x rest ih =>
    intro l2 i a b h1 h2
    cases l2 with
    | nil => exact Option.noConfusion h2
    | cons y rest2 =>
      cases i with
      | zero =>
        rw [List.get?_cons_zero] at h1 h2
        rw [List.zip_cons_cons, List.get?_cons_zero,
          Option.some.inj h1, Option.some.inj h2]
      | succ n =>
        rw [List.get?_cons_succ] at h1 h2
        rw [List.zip_cons_cons, List.get?_cons_succ]
        exact ih rest2 n a b h1 h2

lemma resolveStarts_get? (db : SDb) :
    ∀ (pairs : List (String × String)) (bs : List StreamId),
      resolveStarts db pairs = .ok bs →
      ∀ (i : Nat) (k v : String), pairs.get? i = some (k, v) →
        ∃ r, bs.get? i = some r ∧ resolveOne db k v = .ok r := by
  intro pairs
  induction pairs with
  | nil => intro bs hbs i k v hi; exact Option.noConfusion hi
  | cons kv rest ih =>
    intro bs hbs i k v hi
    obtain ⟨k0, v0⟩ := kv
    simp only [resolveStarts] at hbs
    rcases hr : resolveOne db k0 v0 with e | sid
    · rw [hr] at hbs
      exact Except.noConfusion hbs
    · rw [hr] at hbs
      rcases hrest : resolveStarts db rest with e2 | sids
      · rw [hrest] at hbs
        exact Except.noConfusion hbs
      · rw [hrest] at hbs
        have hbs2 : sid :: sids = bs := Except.ok.inj hbs
        cases i with
        | zero =>
          rw [List.get?_cons_zero] at hi
          have hkv := Prod.mk.injEq k0 v0 k v ▸ Option.some.inj hi
          refine ⟨sid, ?_, ?_⟩
          · rw [← hbs2, List.get?_cons_zero]
          · have hk : k0 = k := congrArg Prod.fst (Option.some.inj hi)
            have hv : v0 = v := congrArg Prod.snd (Option.some.inj hi)
            rw [← hk, ← hv]
            exact hr
        | succ n =>
          rw [List.get?_cons_succ] at hi
          obtain ⟨r, hr1, hr2⟩ := ih sids hrest n k v hi
          exact ⟨r, by rw [← hbs2, List.get?_cons_succ]; exact hr1, hr2⟩

/-- C7.  In `XREAD`, a start id given as the sentinel `$` resolves at
CALL time to the stream's current top entry id — the maximum of the
existing ids under the StreamId order — used as an EXCLUSIVE bound:
the resolution of the pair yields exactly that maximum (first and
second/third conjuncts: it is one of the stream's ids and no id of the
stream is above it), the resolved list carries it at the stream's
position (fourth conjunct), and every later poll filters that stream
with the same frozen bound, returning exactly the entries strictly
above it whatever the keyspace has become (fifth conjunct). -/
theorem c7_theorem (db : SDb) (args : List String) (p : XReadArgs)
    (idx : Nat) (key : String) (es : List Entry) (top : StreamId)
    (hp : xreadParse args = .ok p)
    (hkey : p.streamKeys.get? idx = some key)
    (hid : p.startIds.get? idx = some "$")
    (hes : sLookup db key = some es)
    (htop : topId es = some top) :
    resolveOne db key "$" = .ok top
    ∧ top ∈ es.map Prod.fst
    ∧ (∀ e ∈ es, sidLt top e.1 = false)
    ∧ (∀ bs, resolveStarts db (p.streamKeys.zip p.startIds) = .ok bs →
        bs.get? idx = some top)
    ∧ (∀ (dbLater : SDb) (esLater : List Entry),
        sLookup dbLater key = some esLater →
        rangeAfter dbLater key top
          = esLater.filter (fun e => sidLt top e.1)) := by
  have hone : resolveOne db key "$" = .ok top := by
    simp [resolveOne, hes, htop]
  refine ⟨hone, topId_mem htop, topId_ub htop, ?_, ?_⟩
  · intro bs hbs
    have hz := get?_zip p.streamKeys p.startIds idx key "$" hkey hid
    obtain ⟨r, hr1, hr2⟩ := resolveStarts_get? db _ bs hbs idx key "$" hz
    rw [hone] at hr2
    rw [hr1, Except.ok.inj hr2]
  · intro dbLater esLater hl
    simp [rangeAfter, hl]

/-- C7, witness: the stream `s` holds ids 1-0 and 2-0; `XREAD STREAMS
s dollar` parses, and the sentinel resolves to the top id 2-0. -/
theorem c7_witness :
    xreadParse ["streams", "s", "$"] = .ok ⟨none, ["s"], ["$"]⟩
    ∧ resolveOne
        [("s", [(⟨1, 0⟩, ["a", "1"]), (⟨2, 0⟩, ["b", "2"])])] "s" "$"
      = .ok ⟨2, 0⟩ :=
  ⟨rfl,
   (c7_theorem [("s", [(⟨1, 0⟩, ["a", "1"]), (⟨2, 0⟩, ["b", "2"])])]
     ["streams", "s", "$"] ⟨none, ["s"], ["$"]⟩ 0 "s"
     [(⟨1, 0⟩, ["a", "1"]), (⟨2, 0⟩, ["b", "2"])] ⟨2, 0⟩
     rfl rfl rfl rfl rfl).1⟩

lemma toNat_ofNat_small {n : Nat} (h1 : 97 ≤ n) (h2 : n ≤ 122) :
    (Char.ofNat n).toNat = n := by
  have hv : n.isValidChar := Or.inl (by omega)
  simp only [Char.ofNat, dif_pos hv, Char.ofNatAux, Char.toNat]
  simp [UInt32.toNat, UInt32.ofNat']

lemma pyCharLower_not_upper (c : Char) :
    (65 ≤ (pyCharLower c).toNat && (pyCharLower c).toNat ≤ 90) = false := by
  unfold pyCharLower
  split
  next h =>
    rw [toNat_ofNat_small (by omega) (by omega)]
    simp only [Bool.and_eq_false_iff, decide_eq_false_iff_not]
    omega
  next h =>
    simp only [Bool.and_eq_false_iff, decide_eq_false_iff_not]
    omega

lemma hasUpper_pyLower (s : String) : hasUpper (pyLower s) = false := by
  simp only [hasUpper, pyLower, List.any_map, List.any_eq_false]
  intro c hc
  simp only [Function.comp]
  rw [pyCharLower_not_upper c]
  exact Bool.false_ne_true

lemma sLookup_skip {k j : String} (v : List Entry) (db : SDb)
    (hk : hasUpper k = true) (hj : hasUpper j = false) :
    sLookup ((k, v) :: db) j = sLookup db j := by
  have hne : k ≠ j := fun e => by
    rw [e, hj] at hk
    exact Bool.noConfusion hk
  simp [sLookup, hne]

lemma resolveOne_skip {k j : String} (v : List Entry) (db : SDb)
    (s : String) (hk : hasUpper k = true) (hj : hasUpper j = false) :
    resolveOne ((k, v) :: db) j s = resolveOne db j s := by
  unfold resolveOne
  rw [sLookup_skip v db hk hj]

lemma resolveStarts_skip {k : String} (v : List Entry) (db : SDb)
    (hk : hasUpper k = true) :
    ∀ pairs : List (String × String),
      (∀ js ∈ pairs, hasUpper js.1 = false) →
      resolveStarts ((k, v) :: db) pairs = resolveStarts db pairs := by
  intro pairs
  induction pairs with
  | nil => intro _; rfl
  | cons js rest ih =>
    intro hall
    obtain ⟨j0, s0⟩ := js
    have hj0 : hasUpper j0 = false := hall (j0, s0) (List.mem_cons_self _ _)
    simp only [resolveStarts,
      resolveOne_skip v db s0 hk hj0,
      ih (fun js hjs => hall js (List.mem_cons_of_mem _ hjs))]

lemma rangeAfter_skip {k j : String} (v : List Entry) (db : SDb)
    (start : StreamId) (hk : hasUpper k = true) (hj : hasUpper j = false) :
    rangeAfter ((k, v) :: db) j start = rangeAfter db j start := by
  unfold rangeAfter
  rw [sLookup_skip v db hk hj]

lemma xreadPoll_skip {k : String} (v : List Entry) (db : SDb)
    (hk : hasUpper k = true) (keys : List String)
    (starts : List StreamId) (hall : ∀ j ∈ keys, hasUpper j = false) :
    xreadPoll ((k, v) :: db) keys starts = xreadPoll db keys starts := by
  unfold xreadPoll
  apply List.filterMap_congr
  intro p hp
  have hj : hasUpper p.1 = false := hall p.1 (List.of_mem_zip hp).1
  rw [rangeAfter_skip v db p.2 hk hj]

lemma xreadParse_keys_lower (args : List String) (p : XReadArgs)
    (hp : xreadParse args = .ok p) :
    ∀ j ∈ p.streamKeys, hasUpper j = false := by
  unfold xreadParse at hp
  split at hp
  · dsimp only at hp
    split at hp
    · exact Except.noConfusion hp
    next si hsi =>
      split at hp
      · exact Except.noConfusion hp
      next b hb =>
        split at hp
        · exact Except.noConfusion hp
        next =>
          have hfields := Except.ok.inj hp
          intro j hj
          have hkeys : p.streamKeys
              = ((args.map pyLower).drop (si + 1)).take
                  (((args.map pyLower).drop (si + 1)).length / 2) := by
            rw [← hfields]
          rw [hkeys] at hj
          have hj2 := List.mem_of_mem_drop (List.mem_of_mem_take hj)
          obtain ⟨t, _, rfl⟩ := List.mem_map.mp hj2
          exact hasUpper_pyLower t
  · exact Except.noConfusion hp

/-- C10, amended.  `XREAD` folds every one of its arguments to
lowercase and then matches stream keys EXACTLY against the keyspace:
every stream key the command consults is free of uppercase (ASCII)
letters (first conjunct), so a stream stored under a key containing an
uppercase letter is invisible to `XREAD` — adding or removing such an
entry cannot change the result of any invocation (second conjunct),
nor of any later poll of a blocking invocation (third conjunct): an
`XREAD` naming that exact key never finds it. -/
theorem c10_amended :
    (∀ (args : List String) (p : XReadArgs), xreadParse args = .ok p →
      ∀ j ∈ p.streamKeys, hasUpper j = false)
    ∧ (∀ k : String, hasUpper k = true →
        ∀ (v : List Entry) (db : SDb) (args : List String),
          xreadOnce ((k, v) :: db) args = xreadOnce db args)
    ∧ (∀ k : String, hasUpper k = true →
        ∀ (v : List Entry) (db : SDb) (keys : List String)
          (starts : List StreamId),
          (∀ j ∈ keys, hasUpper j = false) →
          xreadPoll ((k, v) :: db) keys starts
            = xreadPoll db keys starts) := by
  refine ⟨xreadParse_keys_lower, ?_, ?_⟩
  · intro k hk v db args
    cases hparse : xreadParse args with
    | error e => simp [xreadOnce, hparse]
    | ok p =>
      have hkeys := xreadParse_keys_lower args p hparse
      have hzip : ∀ js ∈ p.streamKeys.zip p.startIds,
          hasUpper js.1 = false :=
        fun js hjs => hkeys js.1 (List.of_mem_zip hjs).1
      simp only [xreadOnce, hparse]
      rw [resolveStarts_skip v db hk (p.streamKeys.zip p.startIds) hzip]
      cases hres : resolveStarts db (p.streamKeys.zip p.startIds) with
      | error e => rfl
      | ok starts =>
        show Except.ok
            (if xreadPoll ((k, v) :: db) p.streamKeys starts = []
             then none
             else some (xreadPoll ((k, v) :: db) p.streamKeys starts))
          = Except.ok
            (if xreadPoll db p.streamKeys starts = []
             then none
             else some (xreadPoll db p.streamKeys starts))
        rw [xreadPoll_skip v db hk p.streamKeys starts hkeys]
  · intro k hk v db keys starts hall
    exact xreadPoll_skip v db hk keys starts hall

/-- C10, witness for the amended theorem: a stream under `FOO` is
invisible — consing it onto the keyspace does not change the reply of
`XREAD STREAMS foo 0-0`. -/
theorem c10_witness :
    hasUpper "FOO" = true
    ∧ xreadOnce [("FOO", [(⟨1, 0⟩, ["f", "v"])])] ["streams", "foo", "0-0"]
      = xreadOnce [] ["streams", "foo", "0-0"] :=
  ⟨rfl,
   c10_amended.2.1 "FOO" rfl [(⟨1, 0⟩, ["f", "v"])] []
     ["streams", "foo", "0-0"]⟩

end RedisPy
